import Mathlib

/-!
Shallow embedding of `movesmallpix.py`: a scan–classify–transfer pipeline over
a filesystem, with interactive prompts, per-run statistics, and an optional
bottom-up empty-directory pruning pass.

Filesystem paths are modelled as lists of name components, relative to the
scan root (the scan root itself is the empty path `[]`).  File contents are
irrelevant to the program; only sizes in bytes matter.  Sizes in kibibytes
(`bytes / 1024`, a Python float) are modelled as rationals; the divisions by
the power of two 1024 performed on file sizes are exact in double precision
for all realistic sizes, so no rounding behaviour is lost.
-/

/-- A path relative to the scan root: a list of name components. -/
abbrev FPath := List String

/-- A filesystem state: the set of directories (as a list of paths) and the
files (path paired with size in bytes).  The scan root is the path `[]`. -/
structure FS where
  dirs : List FPath
  files : List (FPath × Nat)
deriving DecidableEq

/-- `asChild p d = some x` iff `d` is the immediate child of `p` named `x`,
i.e. `d = p ++ [x]`. -/
def asChild (p d : FPath) : Option String :=
  if d.take p.length = p then
    match d.drop p.length with
    | [x] => some x
    | _ => none
  else none

/-- Names of the immediate subdirectories of `p` (the `dirnames` part of an
`os.scandir`/`os.walk` listing), in filesystem-list order. -/
def children (fs : FS) (p : FPath) : List String :=
  fs.dirs.filterMap (asChild p)

/-- Names of the files directly inside `p` (the `filenames` part of an
`os.scandir`/`os.walk` listing), in filesystem-list order. -/
def filesIn (fs : FS) (p : FPath) : List String :=
  fs.files.filterMap (fun e => asChild p e.1)

/-- `os.rmdir`: remove the directory entry `p`. -/
def rmdirFS (fs : FS) (p : FPath) : FS :=
  { fs with dirs := fs.dirs.filter (fun d => ¬ d = p) }

/-- `os.makedirs(..., exist_ok=True)` for a single new component under the
scan root. -/
def mkdirs (fs : FS) (p : FPath) : FS :=
  if p ∈ fs.dirs then fs else { fs with dirs := fs.dirs ++ [p] }

/-- `os.path.getsize(p)` in bytes.  In every reachable program state the file
exists; a missing path yields the junk value 0 (the real call would raise). -/
def getSizeBytes (fs : FS) (p : FPath) : Nat :=
  match fs.files.find? (fun e => e.1 == p) with
  | some e => e.2
  | none => 0

/-- Remove the file entry at `p`. -/
def removeFile (fs : FS) (p : FPath) : FS :=
  { fs with files := fs.files.filter (fun e => ¬ e.1 = p) }

/-- Create or overwrite the file at `p` with size `sz`
(`shutil.copy`/`shutil.move` silently overwrite an existing target). -/
def setFile (fs : FS) (p : FPath) (sz : Nat) : FS :=
  { fs with files := fs.files.filter (fun e => ¬ e.1 = p) ++ [(p, sz)] }

/-- `shutil.copy src dst`: the source is preserved. -/
def copyFile (fs : FS) (src dst : FPath) : FS :=
  setFile fs dst (getSizeBytes fs src)

/-- `shutil.move src dst`: the source is removed. -/
def moveFile (fs : FS) (src dst : FPath) : FS :=
  setFile (removeFile fs src) dst (getSizeBytes fs src)

/-- Python `str.lower()` (ASCII case mapping; every string this program
lowercases is an ASCII file or directory name). -/
def pyLower (s : String) : String :=
  String.mk (s.data.map Char.toLower)

/-- Index of the last occurrence of `c` in `l`, if any. -/
def lastIdxOf (c : Char) (l : List Char) : Option Nat :=
  match l.reverse.findIdx? (fun a => a == c) with
  | none => none
  | some j => some (l.length - 1 - j)

/-- The extension component of `os.path.splitext` applied to a bare filename
(walk filenames contain no path separator): the substring from the last `.`,
except that when every character before that last dot is itself a dot (e.g.
`".jpg"`, `"..jpg"`) there is no extension. -/
def pySplitextExt (s : String) : String :=
  match lastIdxOf '.' s.data with
  | none => ""
  | some i => if (s.data.take i).all (fun a => a == '.') then "" else String.mk (s.data.drop i)

/-- The naive extension rule as the specification words it: the substring of
the lowercased name from the last `.` (stated for comparison with the code's
`pySplitextExt`). -/
def specLastDotExt (s : String) : String :=
  match lastIdxOf '.' s.data with
  | none => ""
  | some i => String.mk (s.data.drop i)

/-- `os.path.basename` (POSIX): the substring after the last `/`. -/
def pyBasename (s : String) : String :=
  match lastIdxOf '/' s.data with
  | none => s
  | some i => String.mk (s.data.drop (i + 1))

/-- `get_image_formats`: the lowercased keys of the host imaging library's
registered-extension table (abstracted as the parameter `registered`), with
`".webp"` appended.  The code builds a Python list, not a set. -/
def get_image_formats (registered : List String) : List String :=
  registered.map pyLower ++ [".webp"]

/-- Python `str.strip()`: drop whitespace from both ends. -/
def isPySpace (c : Char) : Bool :=
  c == ' ' || c == '\t' || c == '\n' || c == '\r' || c == '\x0b' || c == '\x0c'

/-- Python `str.strip()` on a line of input. -/
def pyStrip (s : String) : String :=
  String.mk (((s.data.dropWhile isPySpace).reverse.dropWhile isPySpace).reverse)

/-- `prompt_user`, run against a stream of input lines.  The Python callable
`convert_type` is abstracted as a partial function `convert` (`none` models a
raised `ValueError`).  Returns the produced value (or `none` when the input
stream is exhausted, where the real loop would block) together with the
remaining input lines. -/
def prompt_user_run {α : Type} (convert : String → Option α) (default : Option α) :
    List String → Option α × List String
  | [] => (none, [])
  | line :: rest =>
    let user_input := pyStrip line
    if user_input = "" ∧ default.isSome then (default, rest)
    else
      match convert user_input with
      | some v => (some v, rest)
      | none => prompt_user_run convert default rest

/-- The value produced by `prompt_user` on a given input stream. -/
def prompt_user {α : Type} (convert : String → Option α) (default : Option α)
    (inputs : List String) : Option α :=
  (prompt_user_run convert default inputs).1

/-- Python `str(x)` on a string: the identity, never raises. -/
def pyStrConv : String → Option String := fun s => some s

/-- The scan-root acquisition loop at the top of `main`: prompt for a string
(no default), and if the answer is not a directory, print an error and try
again.  `isdir` abstracts `os.path.isdir`; the fuel bounds the number of loop
iterations (the real loop can run forever). -/
def get_root_dir (isdir : String → Bool) : Nat → List String → Option String
  | 0, _ => none
  | fuel + 1, inputs =>
    match prompt_user_run pyStrConv none inputs with
    | (some r, rest) => if isdir r then some r else get_root_dir isdir fuel rest
    | (none, _) => none

/-- `get_file_size_kb`: the file size in kibibytes, `os.path.getsize(p)/1024`.
The Python float division by the power of two 1024 is exact for realistic
sizes; the value is the rational `bytes / 1024`, built here with `mkRat` (the
lemma `get_file_size_kb_eq_div` below shows it equals the division). -/
def get_file_size_kb (fs : FS) (p : FPath) : ℚ :=
  mkRat (getSizeBytes fs p) 1024

/-- The per-run configuration of the classifier and transfer engine, fixed
before the walk starts. -/
structure ScanConfig where
  formats : List String
  minSizeKB : Nat
  moveFiles : Bool
  rootBase : String
  destDir : FPath
deriving DecidableEq

/-- The mutable per-run accumulators of `main`: the `files_found_data` and
`files_moved_data` lists of `(file_path, file_size_kb)` records, plus the
sequence of executed transfers as `(source path, new file name)`. -/
structure ScanState where
  found : List (FPath × ℚ)
  moved : List (FPath × ℚ)
  transfers : List (FPath × String)
deriving DecidableEq

/-- The body of the scan loop for one filename of a directory listing
(`main`, lines 88–100): classify by lowercased `splitext` extension, record a
found image, and when its size is strictly below the threshold, move or copy
it into the destination directory under the name
`basename(root) ++ "_" ++ filename` and record it as moved. -/
def processFile (cfg : ScanConfig) (fs : FS) (st : ScanState) (dirp : FPath)
    (filename : String) : FS × ScanState :=
  if pySplitextExt (pyLower filename) ∈ cfg.formats then
    let file_path := dirp ++ [filename]
    let file_size_kb := get_file_size_kb fs file_path
    let st := { st with found := st.found ++ [(file_path, file_size_kb)] }
    if file_size_kb < (cfg.minSizeKB : ℚ) then
      let new_file_name := cfg.rootBase ++ "_" ++ filename
      let new_file_path := cfg.destDir ++ [new_file_name]
      let fs' := if cfg.moveFiles then moveFile fs file_path new_file_path
                 else copyFile fs file_path new_file_path
      (fs', { st with moved := st.moved ++ [(file_path, file_size_kb)],
                      transfers := st.transfers ++ [(file_path, new_file_name)] })
    else (fs, st)
  else (fs, st)

/-- `os.walk(root)` (top-down) fused with the loop body of `main`: on
entering a directory its listing is snapshotted once (`os.scandir`), the
snapshotted filenames are processed against the evolving filesystem, and the
walk then descends into the snapshotted subdirectories.  Files transferred
into a directory before it is scanned are therefore enumerated by the same
walk.  The fuel bounds recursion depth; a value exceeding the greatest
directory depth makes it inoperative. -/
def walkDirs : Nat → ScanConfig → FS → ScanState → FPath → FS × ScanState
  | 0, _, fs, st, _ => (fs, st)
  | fuel + 1, cfg, fs, st, p =>
    let ds := children fs p
    let fls := filesIn fs p
    let x := fls.foldl (fun a f => processFile cfg a.1 a.2 p f) (fs, st)
    ds.foldl (fun a d => walkDirs fuel cfg a.1 a.2 (p ++ [d])) x

/-- The operator input for one iteration of `main`'s outer loop. -/
structure ScanRequest where
  rootStr : String
  minSizeKB : Nat
  moveFiles : Bool
  timestamp : String
deriving DecidableEq

/-- The observable outcome of one scan run. -/
structure RunResult where
  found : List (FPath × ℚ)
  moved : List (FPath × ℚ)
  transfers : List (FPath × String)
  fs : FS
deriving DecidableEq

/-- One iteration of `main`'s scan (lines 75–100): derive the format list,
create the timestamped destination directory inside the scan root before the
walk begins, then walk the root. -/
def runScan (registered : List String) (req : ScanRequest) (fs0 : FS) : RunResult :=
  let image_formats := get_image_formats registered
  let destination_dir : FPath := [req.timestamp]
  let fs1 := mkdirs fs0 destination_dir
  let cfg : ScanConfig :=
    ⟨image_formats, req.minSizeKB, req.moveFiles, pyBasename req.rootStr, destination_dir⟩
  let r := walkDirs (fs1.dirs.length + 1) cfg fs1 ⟨[], [], []⟩ []
  ⟨r.2.found, r.2.moved, r.2.transfers, r.1⟩

/-- The reported average size (`main`, lines 112–113): `sum/len` when the
record list is nonempty, else the literal 0. -/
def avgSize (l : List (FPath × ℚ)) : ℚ :=
  match l with
  | [] => 0
  | _ => (l.map (fun r => r.2)).sum / (l.length : ℚ)

/-- `delete_empty_dirs`' bottom-up `os.walk(root, topdown=False)` fused with
its loop body.  A directory's `(dirnames, filenames)` snapshot is taken when
the walk first reaches it — before its children are yielded — so the
emptiness test for a parent does not see removals of its children performed
later in the same pass.  The fuel bounds recursion depth. -/
def deleteEmptyWalk : Nat → FS → FPath → FS
  | 0, fs, _ => fs
  | fuel + 1, fs, p =>
    let ds := children fs p
    let fls := filesIn fs p
    let fs1 := ds.foldl (fun a x => deleteEmptyWalk fuel a (p ++ [x])) fs
    if ds = [] ∧ fls = [] then rmdirFS fs1 p else fs1

/-- `delete_empty_dirs(root_dir)`: one bottom-up pass from the scan root.
The fuel `dirs.length + 1` exceeds every reachable depth, since each visited
directory below the root is a distinct entry of `dirs`. -/
def delete_empty_dirs (fs : FS) : FS :=
  deleteEmptyWalk (fs.dirs.length + 1) fs []

/-- The directories a bottom-up pass started at `p` removes, computed purely
from the pre-pass filesystem `fs`: a visited directory is collected exactly
when its pre-pass listing shows no subdirectories and no files. -/
def emptyDirsOf : Nat → FS → FPath → List FPath
  | 0, _, _ => []
  | fuel + 1, fs, p =>
    let ds := children fs p
    let fls := filesIn fs p
    (ds.flatMap fun x => emptyDirsOf fuel fs (p ++ [x])) ++
      (if ds = [] ∧ fls = [] then [p] else [])

/-- Remove a set (list) of directory entries at once; the pruning pass is
shown below to equal such a removal computed from the pre-pass filesystem. -/
def removeDirs (fs : FS) (R : List FPath) : FS :=
  { fs with dirs := fs.dirs.filter (fun d => ¬ d ∈ R) }

/-- How one engine step (processing one file, or walking one subtree) may
change the filesystem and the accumulators: the three record lists only grow
at the end; every appended moved record is among the appended found records
and strictly below the threshold; appended transfers correspond one-to-one to
appended moved records and follow the renaming rule; the filesystem is
untouched unless something was moved; directories are never touched. -/
def StepExtends (cfg : ScanConfig) (a b : FS × ScanState) : Prop :=
  ∃ F M T,
    b.2.found = a.2.found ++ F ∧
    b.2.moved = a.2.moved ++ M ∧
    b.2.transfers = a.2.transfers ++ T ∧
    (∀ r ∈ M, r ∈ F ∧ r.2 < (cfg.minSizeKB : ℚ)) ∧
    T.map Prod.fst = M.map Prod.fst ∧
    (∀ t ∈ T, ∃ n, t.1.getLast? = some n ∧ t.2 = cfg.rootBase ++ "_" ++ n) ∧
    (M = [] → b.1 = a.1) ∧
    b.1.dirs = a.1.dirs

/-- A model of the imaging library's registered-extension table for the
concrete scenarios: `.jpg` and `.png` are registered. -/
def exRegistered : List String := [".jpg", ".png"]

/-- The concrete request of the specification's copy-mode scenario: scan root
`"pics"`, threshold 90 KB, copy mode. -/
def exReq : ScanRequest := ⟨"pics", 90, false, "20240101_120000"⟩

/-- The scenario filesystem: the root contains `a.jpg` (50 KB) and `b.png`
(200 KB) and nothing else. -/
def exFS : FS := ⟨[], [(["a.jpg"], 51200), (["b.png"], 204800)]⟩

/-- A three-level chain root ⊇ `a` ⊇ `a/b` with `a/b` empty: removing `a/b`
makes `a` empty during the pruning pass. -/
def exFS2 : FS := ⟨[[], ["a"], ["a", "b"]], []⟩

/-- A root containing only the dotfile `.jpg` (10 KB). -/
def exFSdot : FS := ⟨[], [([".jpg"], 10240)]⟩

/-- A root containing nothing at all. -/
def exFSEmpty : FS := ⟨[], []⟩

/-- A concrete conversion function for exercising the prompt contract: only
the string `"7"` converts (to 7). -/
def promptDemoConvert : String → Option Nat :=
  fun s => if s = "7" then some 7 else none

/-! ### Basic lemmas about the filesystem model -/

theorem asChild_eq_some (p d : FPath) (x : String) :
    asChild p d = some x ↔ d = p ++ [x] := by
  constructor
  · intro hx
    have h₁ : d.take p.length = p := by
      by_contra h
      simp [asChild, h] at hx
    have hsplit : d = p ++ d.drop p.length := by
      conv_lhs => rw [← List.take_append_drop p.length d]
      rw [h₁]
    rw [asChild, if_pos h₁] at hx
    rcases hd : d.drop p.length with _ | ⟨y, _ | ⟨z, tl⟩⟩ <;>
      rw [hd] at hx hsplit <;> simp_all
  · rintro rfl
    have ht : (p ++ [x]).take p.length = p := by
      simp
    have hd : (p ++ [x]).drop p.length = [x] := by
      simp
    rw [asChild, if_pos ht, hd]

theorem asChild_self (p : FPath) : asChild p p = none := by
  rcases h : asChild p p with _ | x
  · rfl
  · have := (asChild_eq_some p p x).mp h
    exact absurd this (by simp)

theorem mem_children (fs : FS) (p : FPath) (x : String) :
    x ∈ children fs p ↔ p ++ [x] ∈ fs.dirs := by
  unfold children
  rw [List.mem_filterMap]
  constructor
  · rintro ⟨d, hd, hx⟩
    rwa [(asChild_eq_some p d x).mp hx] at hd
  · intro h
    exact ⟨p ++ [x], h, (asChild_eq_some p (p ++ [x]) x).mpr rfl⟩

theorem get_file_size_kb_eq_div (fs : FS) (p : FPath) :
    get_file_size_kb fs p = (getSizeBytes fs p : ℚ) / 1024 := by
  rw [get_file_size_kb, Rat.mkRat_eq_div]
  norm_num

/-! ### The pruning pass is determined by the pre-pass filesystem -/

theorem filterMap_filter_eq {α β : Type _} (g : α → Option β) (f : α → Bool) (l : List α)
    (h : ∀ a ∈ l, (g a).isSome → f a = true) :
    (l.filter f).filterMap g = l.filterMap g := by
  induction l with
  | nil => rfl
  | cons a t ih =>
    have ht : ∀ x ∈ t, (g x).isSome → f x = true :=
      fun x hx => h x (List.mem_cons_of_mem a hx)
    by_cases hfa : f a = true
    · rcases hga : g a with _ | b <;>
        simp [List.filter_cons, hfa, List.filterMap_cons, hga, ih ht]
    · have hga : g a = none := by
        rcases hg : g a with _ | b
        · rfl
        · exact absurd (h a (List.mem_cons_self a t) (by simp [hg])) hfa
      simp [List.filter_cons, hfa, List.filterMap_cons, hga, ih ht]

theorem removeDirs_files (fs : FS) (R : List FPath) :
    (removeDirs fs R).files = fs.files := rfl

theorem removeDirs_nil (fs : FS) : removeDirs fs [] = fs := by
  simp [removeDirs]

theorem removeDirs_removeDirs (fs : FS) (R S : List FPath) :
    removeDirs (removeDirs fs R) S = removeDirs fs (R ++ S) := by
  simp only [removeDirs, List.filter_filter]
  congr 1
  apply List.filter_congr
  intro x _
  by_cases h1 : x ∈ R <;> by_cases h2 : x ∈ S <;> simp [h1, h2]

theorem rmdirFS_eq (fs : FS) (p : FPath) : rmdirFS fs p = removeDirs fs [p] := by
  simp only [rmdirFS, removeDirs]
  congr 1
  apply List.filter_congr
  intro x _
  simp

theorem children_removeDirs (fs : FS) (R : List FPath) (q : FPath)
    (h : ∀ r ∈ R, ¬ q <+: r) :
    children (removeDirs fs R) q = children fs q := by
  unfold children removeDirs
  apply filterMap_filter_eq
  intro d _ hs
  rcases Option.isSome_iff_exists.mp hs with ⟨x, hx⟩
  have hd := (asChild_eq_some q d x).mp hx
  subst hd
  simp only [decide_eq_true_eq]
  intro hmem
  exact h _ hmem (List.prefix_append q [x])

theorem filesIn_removeDirs (fs : FS) (R : List FPath) (q : FPath) :
    filesIn (removeDirs fs R) q = filesIn fs q := rfl

theorem emptyDirsOf_removeDirs (fuel : Nat) : ∀ (fs : FS) (R : List FPath) (q : FPath),
    (∀ r ∈ R, ¬ q <+: r) →
    emptyDirsOf fuel (removeDirs fs R) q = emptyDirsOf fuel fs q := by
  induction fuel with
  | zero => intros; rfl
  | succ n ih =>
    intro fs R q h
    simp only [emptyDirsOf]
    rw [children_removeDirs fs R q h, filesIn_removeDirs]
    congr 1
    apply List.flatMap_congr
    intro x _
    exact ih fs R (q ++ [x]) (fun r hr hpre => h r hr ((List.prefix_append q [x]).trans hpre))

theorem emptyDirsOf_prefix_of_mem (fuel : Nat) : ∀ (fs : FS) (q r : FPath),
    r ∈ emptyDirsOf fuel fs q → q <+: r := by
  induction fuel with
  | zero => intro fs q r h; simp [emptyDirsOf] at h
  | succ n ih =>
    intro fs q r h
    simp only [emptyDirsOf, List.mem_append, List.mem_flatMap] at h
    rcases h with ⟨x, _, hr⟩ | hr
    · exact (List.prefix_append q [x]).trans (ih fs (q ++ [x]) r hr)
    · split at hr
      · simp only [List.mem_singleton] at hr
        exact hr ▸ List.prefix_refl r
      · simp at hr

theorem emptyDirsOf_listing_empty (fuel : Nat) : ∀ (fs : FS) (q r : FPath),
    r ∈ emptyDirsOf fuel fs q → children fs r = [] ∧ filesIn fs r = [] := by
  induction fuel with
  | zero => intro fs q r h; simp [emptyDirsOf] at h
  | succ n ih =>
    intro fs q r h
    simp only [emptyDirsOf, List.mem_append, List.mem_flatMap] at h
    rcases h with ⟨x, _, hr⟩ | hr
    · exact ih fs (q ++ [x]) r hr
    · split at hr
      · rename_i hcond
        simp only [List.mem_singleton] at hr
        rw [hr]
        exact hcond
      · simp at hr

theorem children_nodup (fs : FS) (p : FPath) (h : fs.dirs.Nodup) :
    (children fs p).Nodup := by
  refine List.Nodup.filterMap ?_ h
  intro a a' b hb hb'
  rw [Option.mem_def, asChild_eq_some] at hb hb'
  exact hb.trans hb'.symm

theorem deleteEmptyWalk_eq (fuel : Nat) : ∀ (fs : FS) (p : FPath), fs.dirs.Nodup →
    deleteEmptyWalk fuel fs p = removeDirs fs (emptyDirsOf fuel fs p) := by
  induction fuel with
  | zero =>
    intro fs p _
    simp only [deleteEmptyWalk, emptyDirsOf]
    rw [removeDirs_nil]
  | succ n ih =>
    intro fs p hnd
    have key : ∀ (l : List String), l.Nodup →
        ∀ (R : List FPath), (∀ x ∈ l, ∀ r ∈ R, ¬ (p ++ [x]) <+: r) →
        l.foldl (fun a x => deleteEmptyWalk n a (p ++ [x])) (removeDirs fs R)
          = removeDirs fs (R ++ l.flatMap fun x => emptyDirsOf n fs (p ++ [x])) := by
      intro l
      induction l with
      | nil =>
        intro _ R _
        simp
      | cons x t iht =>
        intro hlnd R hdisj
        simp only [List.foldl_cons]
        rw [ih (removeDirs fs R) (p ++ [x]) (List.Nodup.filter _ hnd)]
        rw [emptyDirsOf_removeDirs n fs R (p ++ [x])
          (fun r hr => hdisj x (List.mem_cons_self x t) r hr)]
        rw [removeDirs_removeDirs]
        rw [iht (List.Nodup.of_cons hlnd) (R ++ emptyDirsOf n fs (p ++ [x])) ?_]
        · rw [List.flatMap_cons, ← List.append_assoc]
        · intro y hy r hr
          rw [List.mem_append] at hr
          rcases hr with hr | hr
          · exact hdisj y (List.mem_cons_of_mem x hy) r hr
          · intro hpre
            have hx : (p ++ [x]) <+: r := emptyDirsOf_prefix_of_mem n fs (p ++ [x]) r hr
            have heq : p ++ [x] = p ++ [y] := by
              rcases List.prefix_or_prefix_of_prefix hx hpre with h | h
              · exact h.eq_of_length (by simp)
              · exact (h.eq_of_length (by simp)).symm
            have hxy : x = y := by simpa using List.append_cancel_left heq
            subst hxy
            exact (List.nodup_cons.mp hlnd).1 hy
    simp only [deleteEmptyWalk, emptyDirsOf]
    have h0 := key (children fs p) (children_nodup fs p hnd) [] (by simp)
    rw [removeDirs_nil] at h0
    rw [h0]
    simp only [List.nil_append]
    by_cases hcond : children fs p = [] ∧ filesIn fs p = []
    · rw [if_pos hcond, if_pos hcond, rmdirFS_eq, removeDirs_removeDirs]
    · rw [if_neg hcond, if_neg hcond, List.append_nil]

/-! ### Step-extension invariants of the classifier and transfer engine -/

theorem stepExtends_rfl (cfg : ScanConfig) (a : FS × ScanState) : StepExtends cfg a a := by
  unfold StepExtends
  exact ⟨[], [], [], by simp, by simp, by simp, by simp, by simp, by simp, fun _ => rfl, rfl⟩

theorem stepExtends_trans (cfg : ScanConfig) (a b c : FS × ScanState)
    (h1 : StepExtends cfg a b) (h2 : StepExtends cfg b c) : StepExtends cfg a c := by
  obtain ⟨F₁, M₁, T₁, hf₁, hm₁, ht₁, hr₁, hmap₁, hn₁, hfs₁, hd₁⟩ := h1
  obtain ⟨F₂, M₂, T₂, hf₂, hm₂, ht₂, hr₂, hmap₂, hn₂, hfs₂, hd₂⟩ := h2
  refine ⟨F₁ ++ F₂, M₁ ++ M₂, T₁ ++ T₂, ?_, ?_, ?_, ?_, ?_, ?_, ?_, ?_⟩
  · rw [hf₂, hf₁, List.append_assoc]
  · rw [hm₂, hm₁, List.append_assoc]
  · rw [ht₂, ht₁, List.append_assoc]
  · intro r hr
    rw [List.mem_append] at hr
    rcases hr with h | h
    · obtain ⟨hF, hlt⟩ := hr₁ r h
      exact ⟨List.mem_append_left _ hF, hlt⟩
    · obtain ⟨hF, hlt⟩ := hr₂ r h
      exact ⟨List.mem_append_right _ hF, hlt⟩
  · rw [List.map_append, List.map_append, hmap₁, hmap₂]
  · intro t ht
    rw [List.mem_append] at ht
    rcases ht with h | h
    · exact hn₁ t h
    · exact hn₂ t h
  · intro hM
    rw [List.append_eq_nil] at hM
    rw [hfs₂ hM.2, hfs₁ hM.1]
  · rw [hd₂, hd₁]

theorem processFile_extends (cfg : ScanConfig) (fs : FS) (st : ScanState) (dirp : FPath)
    (f : String) : StepExtends cfg (fs, st) (processFile cfg fs st dirp f) := by
  simp only [processFile]
  by_cases hext : pySplitextExt (pyLower f) ∈ cfg.formats
  · simp only [if_pos hext]
    by_cases hsz : get_file_size_kb fs (dirp ++ [f]) < (cfg.minSizeKB : ℚ)
    · simp only [if_pos hsz]
      unfold StepExtends
      refine ⟨[(dirp ++ [f], get_file_size_kb fs (dirp ++ [f]))],
              [(dirp ++ [f], get_file_size_kb fs (dirp ++ [f]))],
              [(dirp ++ [f], cfg.rootBase ++ "_" ++ f)], rfl, rfl, rfl, ?_, rfl, ?_, ?_, ?_⟩
      · intro r hr
        simp only [List.mem_singleton] at hr
        rw [hr]
        exact ⟨List.mem_singleton.mpr rfl, hsz⟩
      · intro t htm
        simp only [List.mem_singleton] at htm
        rw [htm]
        exact ⟨f, List.getLast?_concat dirp, rfl⟩
      · intro hM
        simp at hM
      · by_cases hm : cfg.moveFiles <;>
          simp [hm, moveFile, copyFile, setFile, removeFile]
    · simp only [if_neg hsz]
      unfold StepExtends
      exact ⟨[(dirp ++ [f], get_file_size_kb fs (dirp ++ [f]))], [], [],
        rfl, by simp, by simp, by simp, by simp, by simp, fun _ => rfl, rfl⟩
  · simp only [if_neg hext]
    exact stepExtends_rfl cfg (fs, st)

theorem foldl_extends {β : Type _} (cfg : ScanConfig)
    (step : FS × ScanState → β → FS × ScanState)
    (hstep : ∀ a b, StepExtends cfg a (step a b)) :
    ∀ (l : List β) (a : FS × ScanState), StepExtends cfg a (l.foldl step a) := by
  intro l
  induction l with
  | nil => intro a; exact stepExtends_rfl cfg a
  | cons x t ih =>
    intro a
    rw [List.foldl_cons]
    exact stepExtends_trans cfg a (step a x) _ (hstep a x) (ih (step a x))

theorem walkDirs_extends (fuel : Nat) : ∀ (cfg : ScanConfig) (fs : FS) (st : ScanState)
    (p : FPath), StepExtends cfg (fs, st) (walkDirs fuel cfg fs st p) := by
  induction fuel with
  | zero => intro cfg fs st p; exact stepExtends_rfl cfg (fs, st)
  | succ n ih =>
    intro cfg fs st p
    simp only [walkDirs]
    refine stepExtends_trans cfg (fs, st)
      ((filesIn fs p).foldl (fun a f => processFile cfg a.1 a.2 p f) (fs, st)) _ ?_ ?_
    · exact foldl_extends cfg _ (fun a b => processFile_extends cfg a.1 a.2 p b) _ (fs, st)
    · exact foldl_extends cfg _ (fun a b => ih cfg a.1 a.2 (p ++ [b])) _ _

/-! ### Claim theorems -/

/-- C1 counterexample: in the spec's copy-mode scenario (scan root with
`a.jpg` at 50 KB and `b.png` at 200 KB, threshold 90), the run does not
report found = 2 and moved = 1 with average found size 125: because the
destination directory is created inside the scan root before the walk, the
walk enumerates the copy `pics_a.jpg` placed there during the same run and
transfers it again, so found = 3 and moved = 2. -/
theorem runScan_copy_scenario_refuted :
    ¬ ((runScan exRegistered exReq exFS).found.length = 2 ∧
       (runScan exRegistered exReq exFS).moved.length = 1) ∧
    (runScan exRegistered exReq exFS).found.length = 3 ∧
    (runScan exRegistered exReq exFS).moved.length = 2 := by
  refine ⟨?_, by decide, by decide⟩
  intro h
  have := h.1
  revert this
  decide

/-- C1 amended: in the copy-mode scenario the run reports found = 3 (`a.jpg`,
`b.png`, and the in-run copy `pics_a.jpg` re-enumerated from the destination
directory) and moved = 2; the average found size is 100.00 KB and the average
moved size is 50.00 KB; `a.jpg` remains at its original location; and a copy
named `<rootBase>_a.jpg` appears in the destination directory (together with
the second-generation copy `pics_pics_a.jpg`). -/
theorem runScan_copy_scenario :
    (runScan exRegistered exReq exFS).found.length = 3 ∧
    (runScan exRegistered exReq exFS).moved =
      [(["a.jpg"], 50), (["20240101_120000", "pics_a.jpg"], 50)] ∧
    avgSize (runScan exRegistered exReq exFS).found = 100 ∧
    avgSize (runScan exRegistered exReq exFS).moved = 50 ∧
    (["a.jpg"], 51200) ∈ (runScan exRegistered exReq exFS).fs.files ∧
    (["20240101_120000", "pics_a.jpg"], 51200) ∈ (runScan exRegistered exReq exFS).fs.files := by
  have hfound : (runScan exRegistered exReq exFS).found =
      [(["a.jpg"], 50), (["b.png"], 200), (["20240101_120000", "pics_a.jpg"], 50)] := by
    decide
  have hmoved : (runScan exRegistered exReq exFS).moved =
      [(["a.jpg"], 50), (["20240101_120000", "pics_a.jpg"], 50)] := by
    decide
  refine ⟨by decide, hmoved, ?_, ?_, by decide, by decide⟩
  · rw [hfound]
    show ((50 : ℚ) + (200 + (50 + 0))) / 3 = 100
    norm_num
  · rw [hmoved]
    show ((50 : ℚ) + (50 + 0)) / 2 = 50
    norm_num

/-- C2 counterexample: on the chain root ⊇ `a` ⊇ `a/b` with `a/b` empty, the
single bottom-up pass removes `a/b` but does not remove `a`, although `a` has
zero remaining subdirectories and zero files after the pass: `a`'s snapshot
was taken before its child was removed. -/
theorem delete_empty_dirs_no_cascade :
    children exFS2 ["a"] = ["b"] ∧
    (delete_empty_dirs exFS2).dirs = [[], ["a"]] ∧
    ["a"] ∈ (delete_empty_dirs exFS2).dirs ∧
    children (delete_empty_dirs exFS2) ["a"] = [] ∧
    filesIn (delete_empty_dirs exFS2) ["a"] = [] := by
  decide

/-- C2 amended: empty-directory pruning is a single bottom-up pass whose
effect is fully determined by the pre-pass filesystem: files are untouched,
and the surviving directories are exactly those whose pre-pass listing is
outside `emptyDirsOf` (the visited directories whose pre-pass listing shows
zero subdirectories and zero files).  In particular a directory that was
nonempty when the pass began — e.g. one that becomes empty only because its
child subdirectories are removed during the pass — is NOT removed, because
each parent's snapshot is taken before its children are processed. -/
theorem delete_empty_dirs_spec (fs : FS) (hnd : fs.dirs.Nodup) :
    (delete_empty_dirs fs).files = fs.files ∧
    (delete_empty_dirs fs).dirs =
      fs.dirs.filter (fun d => ¬ d ∈ emptyDirsOf (fs.dirs.length + 1) fs []) ∧
    ∀ d ∈ fs.dirs, (children fs d ≠ [] ∨ filesIn fs d ≠ []) →
      d ∈ (delete_empty_dirs fs).dirs := by
  have h := deleteEmptyWalk_eq (fs.dirs.length + 1) fs [] hnd
  refine ⟨?_, ?_, ?_⟩
  · rw [delete_empty_dirs, h]
    rfl
  · rw [delete_empty_dirs, h]
    rfl
  · intro d hd hne
    rw [delete_empty_dirs, h]
    show d ∈ fs.dirs.filter _
    rw [List.mem_filter]
    refine ⟨hd, ?_⟩
    simp only [decide_eq_true_eq]
    intro hmem
    obtain ⟨hc, hf⟩ := emptyDirsOf_listing_empty _ fs [] d hmem
    rcases hne with hne | hne
    · exact hne hc
    · exact hne hf

/-- C2 amended, witness: on the chain example the characterization holds and
its survival clause applies to `a`, which has the child `b` before the pass. -/
theorem delete_empty_dirs_spec_witness :
    (delete_empty_dirs exFS2).files = exFS2.files ∧
    (delete_empty_dirs exFS2).dirs =
      exFS2.dirs.filter (fun d => ¬ d ∈ emptyDirsOf (exFS2.dirs.length + 1) exFS2 []) ∧
    ["a"] ∈ (delete_empty_dirs exFS2).dirs := by
  have h := delete_empty_dirs_spec exFS2 (by decide)
  exact ⟨h.1, h.2.1, h.2.2 ["a"] (by decide) (by decide)⟩

/-- C4 counterexample: when the host imaging library itself registers
`.webp` (as modern Pillow does), `get_image_formats` returns a list with a
duplicate element — it is not a set. -/
theorem get_image_formats_dup :
    get_image_formats [".webp"] = [".webp", ".webp"] ∧
    ¬ (get_image_formats [".webp"]).Nodup := by
  decide

/-- C4 amended: the registry function returns a Python list, not a set (it
may contain duplicates, e.g. when the host library already registers
`.webp`); its members are exactly the lowercased registered extensions
together with `".webp"`; an empty registry yields exactly `[".webp"]`; every
element begins with `'.'` whenever every registered extension does; and the
function is total (no error path). -/
theorem get_image_formats_spec (registered : List String) :
    (∀ x, x ∈ get_image_formats registered ↔
      (∃ f ∈ registered, x = pyLower f) ∨ x = ".webp") ∧
    get_image_formats [] = [".webp"] ∧
    ((∀ f ∈ registered, f.data.head? = some '.') →
      ∀ x ∈ get_image_formats registered, x.data.head? = some '.') := by
  refine ⟨?_, rfl, ?_⟩
  · intro x
    simp only [get_image_formats, List.mem_append, List.mem_map, List.mem_singleton]
    constructor
    · rintro (⟨f, hf, rfl⟩ | h)
      · exact Or.inl ⟨f, hf, rfl⟩
      · exact Or.inr h
    · rintro (⟨f, hf, rfl⟩ | h)
      · exact Or.inl ⟨f, hf, rfl⟩
      · exact Or.inr h
  · intro hdot x hx
    simp only [get_image_formats, List.mem_append, List.mem_map, List.mem_singleton] at hx
    rcases hx with ⟨f, hf, rfl⟩ | rfl
    · have hh := hdot f hf
      show (f.data.map Char.toLower).head? = some '.'
      rw [List.head?_map, hh]
      rfl
    · rfl

/-- C4 amended, witness: the characterization at the one-element registry
`[".JPG"]`, instantiated at the member `".jpg"`. -/
theorem get_image_formats_spec_witness :
    (".jpg" ∈ get_image_formats [".JPG"] ↔
      (∃ f ∈ [".JPG"], ".jpg" = pyLower f) ∨ ".jpg" = ".webp") ∧
    get_image_formats [] = [".webp"] ∧
    ".jpg".data.head? = some '.' := by
  have h := get_image_formats_spec [".JPG"]
  exact ⟨h.1 ".jpg", h.2.1, h.2.2 (by decide) ".jpg" (by decide)⟩

/-- C5 counterexample: the claim's extraction rule (substring from the last
`.` of the lowercased name) assigns the dotfile `".jpg"` the extension
`".jpg"`, which is in the image-extension list, so the claim predicts it is
found; the code's `os.path.splitext` gives a dotfile no extension, and a run
over a root containing only `".jpg"` (10 KB) finds nothing. -/
theorem dotfile_not_classified :
    specLastDotExt (pyLower ".jpg") = ".jpg" ∧
    ".jpg" ∈ get_image_formats exRegistered ∧
    pySplitextExt (pyLower ".jpg") = "" ∧
    (runScan exRegistered exReq exFSdot).found = [] := by
  decide

/-- C5 amended: classification lowercases the filename and applies Python
`splitext` semantics: when the name has no dot there is no extension; when it
has a last dot, the extension is the substring from that dot (the spec's
naive rule) unless every character before the dot is itself a dot, in which
case there is no extension.  A file is recorded as found exactly when that
extension is in the image-format list, and its recorded size is
`bytes_on_disk / 1024` kibibytes. -/
theorem classification_splitext_spec (cfg : ScanConfig) (fs : FS) (st : ScanState)
    (dirp : FPath) (name s : String) :
    (lastIdxOf '.' s.data = none → pySplitextExt s = "" ∧ specLastDotExt s = "") ∧
    (∀ i, lastIdxOf '.' s.data = some i →
      pySplitextExt s =
        (if (s.data.take i).all (fun a => a == '.') then "" else specLastDotExt s)) ∧
    (pySplitextExt (pyLower name) ∈ cfg.formats →
      (processFile cfg fs st dirp name).2.found =
        st.found ++ [(dirp ++ [name], get_file_size_kb fs (dirp ++ [name]))]) ∧
    (pySplitextExt (pyLower name) ∉ cfg.formats →
      (processFile cfg fs st dirp name).2 = st) ∧
    get_file_size_kb fs (dirp ++ [name]) = (getSizeBytes fs (dirp ++ [name]) : ℚ) / 1024 := by
  refine ⟨?_, ?_, ?_, ?_, get_file_size_kb_eq_div fs (dirp ++ [name])⟩
  · intro h
    constructor <;> simp [pySplitextExt, specLastDotExt, h]
  · intro i hi
    simp only [pySplitextExt, specLastDotExt, hi]
  · intro h
    simp only [processFile, if_pos h]
    by_cases hsz : get_file_size_kb fs (dirp ++ [name]) < (cfg.minSizeKB : ℚ) <;>
      simp [hsz]
  · intro h
    simp [processFile, h]

/-- C5 amended, witness: the dotfile `".jpg"` falls in the all-dots case and
gets no extension, while `"a.jpg"` is classified as found with its size in
binary kibibytes. -/
theorem classification_splitext_spec_witness :
    pySplitextExt ".jpg" =
      (if (".jpg".data.take 0).all (fun a => a == '.') then "" else specLastDotExt ".jpg") ∧
    (processFile ⟨get_image_formats exRegistered, 90, false, "pics", ["d"]⟩
        exFS ⟨[], [], []⟩ [] "a.jpg").2.found =
      [] ++ [(["a.jpg"], get_file_size_kb exFS ["a.jpg"])] ∧
    get_file_size_kb exFS ["a.jpg"] = (getSizeBytes exFS ["a.jpg"] : ℚ) / 1024 := by
  have h := classification_splitext_spec
    ⟨get_image_formats exRegistered, 90, false, "pics", ["d"]⟩ exFS ⟨[], [], []⟩ [] "a.jpg" ".jpg"
  exact ⟨h.2.1 0 (by decide), h.2.2.1 (by decide), h.2.2.2.2⟩

/-- C7: the reported mean size over the found records and over the moved
records is the literal 0 whenever the respective sequence is empty; `avgSize`
is a total function, so computing the report cannot fail with a
division-by-zero error. -/
theorem avg_empty_zero (registered : List String) (req : ScanRequest) (fs0 : FS) :
    avgSize [] = 0 ∧
    ((runScan registered req fs0).found = [] → avgSize (runScan registered req fs0).found = 0) ∧
    ((runScan registered req fs0).moved = [] → avgSize (runScan registered req fs0).moved = 0) := by
  refine ⟨rfl, fun h => ?_, fun h => ?_⟩ <;> rw [h] <;> rfl

/-- C7 witness: a run over an empty root finds and moves nothing and reports
average 0 for both sequences. -/
theorem avg_empty_zero_witness :
    avgSize [] = 0 ∧
    avgSize (runScan exRegistered exReq exFSEmpty).found = 0 ∧
    avgSize (runScan exRegistered exReq exFSEmpty).moved = 0 := by
  have h := avg_empty_zero exRegistered exReq exFSEmpty
  exact ⟨h.1, h.2.1 (by decide), h.2.2 (by decide)⟩

/-- C9: an empty line given to the string-typed directory prompt (no
default) is returned as the empty string by `prompt_user` — conversion of
`""` to `str` succeeds, so the prompt does not re-prompt — and the outer loop
then rejects it through its separate `os.path.isdir` check, restarting the
iteration on the remaining input. -/
theorem empty_dir_input_rejected (isdir : String → Bool) (fuel : Nat) (rest : List String) :
    prompt_user_run pyStrConv none ("" :: rest) = (some "", rest) ∧
    (isdir "" = false →
      get_root_dir isdir (fuel + 1) ("" :: rest) = get_root_dir isdir fuel rest) := by
  have hstrip : pyStrip "" = "" := by decide
  have h1 : prompt_user_run pyStrConv none ("" :: rest) = (some "", rest) := by
    simp [prompt_user_run, hstrip, pyStrConv]
  refine ⟨h1, fun hd => ?_⟩
  simp [get_root_dir, h1, hd]

/-- C9 witness: with an `isdir` that rejects everything, the empty line is
returned by the prompt and the outer loop moves on to the next input line. -/
theorem empty_dir_input_rejected_witness :
    prompt_user_run pyStrConv none [""] = (some "", []) ∧
    get_root_dir (fun _ => false) 2 ["", "x"] = get_root_dir (fun _ => false) 1 ["x"] := by
  have h := empty_dir_input_rejected (fun _ => false) 1 ["x"]
  have h0 := empty_dir_input_rejected (fun _ => false) 0 []
  exact ⟨h0.1, h.2 rfl⟩

/-- C6: the interactive prompt returns the supplied default without
conversion when the stripped input line is empty and a default exists;
otherwise it converts the stripped line and returns the value on success; on
conversion failure it re-prompts on the remaining input; and any value it
ever returns is either the default (for an empty line) or the successful
conversion of some input line — never a value whose conversion failed. -/
theorem prompt_user_contract {α : Type} (convert : String → Option α)
    (default : Option α) (inputs : List String) (line : String) (rest : List String) :
    ((pyStrip line = "" ∧ default.isSome) →
      prompt_user_run convert default (line :: rest) = (default, rest)) ∧
    (¬ (pyStrip line = "" ∧ default.isSome) → ∀ v, convert (pyStrip line) = some v →
      prompt_user_run convert default (line :: rest) = (some v, rest)) ∧
    (¬ (pyStrip line = "" ∧ default.isSome) → convert (pyStrip line) = none →
      prompt_user_run convert default (line :: rest) = prompt_user_run convert default rest) ∧
    (∀ v, prompt_user convert default inputs = some v →
      (∃ l ∈ inputs, pyStrip l = "" ∧ default = some v) ∨
      (∃ l ∈ inputs, convert (pyStrip l) = some v)) := by
  refine ⟨?_, ?_, ?_, ?_⟩
  · intro hc
    simp only [prompt_user_run]
    rw [if_pos hc]
  · intro hc v hv
    simp only [prompt_user_run]
    rw [if_neg hc, hv]
  · intro hc hv
    simp only [prompt_user_run]
    rw [if_neg hc, hv]
  · induction inputs with
    | nil =>
      intro v hv
      simp [prompt_user, prompt_user_run] at hv
    | cons l t ih =>
      intro v hv
      simp only [prompt_user, prompt_user_run] at hv
      by_cases hc : pyStrip l = "" ∧ default.isSome
      · rw [if_pos hc] at hv
        exact Or.inl ⟨l, List.mem_cons_self l t, hc.1, hv⟩
      · rw [if_neg hc] at hv
        rcases hcv : convert (pyStrip l) with _ | w
        · rw [hcv] at hv
          rcases ih v hv with ⟨m, hm, hms⟩ | ⟨m, hm, hms⟩
          · exact Or.inl ⟨m, List.mem_cons_of_mem l hm, hms⟩
          · exact Or.inr ⟨m, List.mem_cons_of_mem l hm, hms⟩
        · rw [hcv] at hv
          simp only at hv
          exact Or.inr ⟨l, List.mem_cons_self l t, by rw [hcv, hv]⟩

/-- C6 witness: with a converter accepting only `"7"`, the default `5` is
returned for a blank line without conversion; `"7"` converts and is
returned; a failing line `"x"` causes a re-prompt on the remaining input;
and the value eventually produced comes from a successful conversion. -/
theorem prompt_user_contract_witness :
    prompt_user_run promptDemoConvert (some 5) [" "] = (some 5, []) ∧
    prompt_user_run promptDemoConvert none ["7"] = (some 7, []) ∧
    prompt_user_run promptDemoConvert none ["x", "7"] = prompt_user_run promptDemoConvert none ["7"] ∧
    ((∃ l ∈ ["x", "7"], pyStrip l = "" ∧ (none : Option Nat) = some 7) ∨
      (∃ l ∈ ["x", "7"], promptDemoConvert (pyStrip l) = some 7)) := by
  have h1 := prompt_user_contract promptDemoConvert (some 5) [] " " []
  have h2 := prompt_user_contract promptDemoConvert none [] "7" []
  have h3 := prompt_user_contract promptDemoConvert none ["x", "7"] "x" ["7"]
  exact ⟨h1.1 (by decide), h2.2.1 (by decide) 7 (by decide),
    h3.2.2.1 (by decide) (by decide), h3.2.2.2 7 (by decide)⟩

/-- C3: in every run, each record of the moved sequence also occurs in the
found sequence (same path, same size) and satisfies `size < threshold`
strictly; and the transferred sources are exactly the moved records' paths,
so no file at or above the threshold is ever transferred. -/
theorem moved_subset_found (registered : List String) (req : ScanRequest) (fs0 : FS) :
    (∀ r ∈ (runScan registered req fs0).moved,
      r ∈ (runScan registered req fs0).found ∧ r.2 < (req.minSizeKB : ℚ)) ∧
    (runScan registered req fs0).transfers.map Prod.fst
      = (runScan registered req fs0).moved.map Prod.fst := by
  have h := walkDirs_extends ((mkdirs fs0 [req.timestamp]).dirs.length + 1)
    ⟨get_image_formats registered, req.minSizeKB, req.moveFiles,
      pyBasename req.rootStr, [req.timestamp]⟩
    (mkdirs fs0 [req.timestamp]) ⟨[], [], []⟩ []
  unfold StepExtends at h
  obtain ⟨F, M, T, hf, hm, ht, hrec, hmap, _, _, _⟩ := h
  have hF : (runScan registered req fs0).found = F := by simpa using hf
  have hM : (runScan registered req fs0).moved = M := by simpa using hm
  have hT : (runScan registered req fs0).transfers = T := by simpa using ht
  constructor
  · intro r hr
    rw [hM] at hr
    obtain ⟨hrF, hlt⟩ := hrec r hr
    rw [hF]
    exact ⟨hrF, hlt⟩
  · rw [hT, hM, hmap]

/-- C3 witness: in the concrete copy-mode scenario, the moved record for
`a.jpg` (50 KB) occurs in the found sequence and is strictly below the 90 KB
threshold, and the transfer sources coincide with the moved paths. -/
theorem moved_subset_found_witness :
    ((["a.jpg"], (50 : ℚ)) ∈ (runScan exRegistered exReq exFS).found ∧
      ((["a.jpg"], (50 : ℚ)).2 < (exReq.minSizeKB : ℚ))) ∧
    (runScan exRegistered exReq exFS).transfers.map Prod.fst
      = (runScan exRegistered exReq exFS).moved.map Prod.fst := by
  have h := moved_subset_found exRegistered exReq exFS
  exact ⟨h.1 (["a.jpg"], 50) (by decide), h.2⟩

/-- C8: every transferred file's output name equals
`basename(scanRoot) ++ "_" ++ originalFilename` exactly, with the original
filename (the last component of the source path) preserved verbatim,
including its casing. -/
theorem transfer_name_rule (registered : List String) (req : ScanRequest) (fs0 : FS) :
    ∀ t ∈ (runScan registered req fs0).transfers, ∃ n, t.1.getLast? = some n ∧
      t.2 = pyBasename req.rootStr ++ "_" ++ n := by
  have h := walkDirs_extends ((mkdirs fs0 [req.timestamp]).dirs.length + 1)
    ⟨get_image_formats registered, req.minSizeKB, req.moveFiles,
      pyBasename req.rootStr, [req.timestamp]⟩
    (mkdirs fs0 [req.timestamp]) ⟨[], [], []⟩ []
  unfold StepExtends at h
  obtain ⟨F, M, T, _, _, ht, _, _, hname, _, _⟩ := h
  have hT : (runScan registered req fs0).transfers = T := by simpa using ht
  intro t htm
  rw [hT] at htm
  exact hname t htm

/-- C8 witness: the transfer of `a.jpg` out of scan root `"pics"` produces
the destination name `"pics_a.jpg"`. -/
theorem transfer_name_rule_witness :
    ∃ n, ((["a.jpg"], "pics_a.jpg") : FPath × String).1.getLast? = some n ∧
      (["a.jpg"], "pics_a.jpg").2 = pyBasename exReq.rootStr ++ "_" ++ n := by
  have h := transfer_name_rule exRegistered exReq exFS
  exact h (["a.jpg"], "pics_a.jpg") (by decide)

/-- C10: the timestamped destination directory is created inside the scan
root before the walk and is still present in the filesystem after every run,
whether or not any file qualified for transfer; and when nothing was
transferred in the run (so the freshly created directory stayed empty) an
empty-directory pruning pass over the same root deletes it.  The hypotheses
say the destination name is fresh: nothing in the initial filesystem lies at
or under it. -/
theorem dest_dir_created_and_pruned (registered : List String) (req : ScanRequest)
    (fs0 : FS) (hnd : fs0.dirs.Nodup)
    (hd2 : ∀ d ∈ fs0.dirs, ¬ [req.timestamp] <+: d)
    (hf3 : ∀ f ∈ fs0.files, ¬ [req.timestamp] <+: f.1) :
    [req.timestamp] ∈ (runScan registered req fs0).fs.dirs ∧
    ((runScan registered req fs0).moved = [] →
      [req.timestamp] ∉ (delete_empty_dirs (runScan registered req fs0).fs).dirs) := by
  have hts : [req.timestamp] ∉ fs0.dirs := fun h => hd2 _ h (List.prefix_refl _)
  have hfs1 : mkdirs fs0 [req.timestamp] = ⟨fs0.dirs ++ [[req.timestamp]], fs0.files⟩ := by
    simp [mkdirs, hts]
  have h := walkDirs_extends ((mkdirs fs0 [req.timestamp]).dirs.length + 1)
    ⟨get_image_formats registered, req.minSizeKB, req.moveFiles,
      pyBasename req.rootStr, [req.timestamp]⟩
    (mkdirs fs0 [req.timestamp]) ⟨[], [], []⟩ []
  unfold StepExtends at h
  obtain ⟨F, M, T, _, hm, _, _, _, _, hfs, hdirs⟩ := h
  have hM : (runScan registered req fs0).moved = M := by simpa using hm
  have h1 : (runScan registered req fs0).fs.dirs = (mkdirs fs0 [req.timestamp]).dirs := hdirs
  constructor
  · rw [h1, hfs1]
    exact List.mem_append_right _ (List.mem_singleton.mpr rfl)
  · intro hmv
    have hM0 : M = [] := by rw [← hM]; exact hmv
    have hfseq : (runScan registered req fs0).fs = mkdirs fs0 [req.timestamp] := hfs hM0
    rw [hfseq, hfs1]
    set fs1 : FS := ⟨fs0.dirs ++ [[req.timestamp]], fs0.files⟩ with hfs1def
    have hnd1 : fs1.dirs.Nodup := by
      rw [hfs1def]
      show (fs0.dirs ++ [[req.timestamp]]).Nodup
      rw [List.nodup_append]
      refine ⟨hnd, List.nodup_singleton _, ?_⟩
      intro a ha hb
      rw [List.mem_singleton] at hb
      rw [hb] at ha
      exact hts ha
    have hch : children fs1 [req.timestamp] = [] := by
      apply List.filterMap_eq_nil_iff.mpr
      intro d hd
      have hd' : d ∈ fs0.dirs ++ [[req.timestamp]] := hd
      rcases List.mem_append.mp hd' with hmem | hmem
      · rcases hx : asChild [req.timestamp] d with _ | x
        · rfl
        · exfalso
          have hdx := (asChild_eq_some [req.timestamp] d x).mp hx
          exact hd2 d hmem (by rw [hdx]; exact List.prefix_append _ _)
      · rw [List.mem_singleton] at hmem
        rw [hmem]
        exact asChild_self [req.timestamp]
    have hfi : filesIn fs1 [req.timestamp] = [] := by
      apply List.filterMap_eq_nil_iff.mpr
      intro e he
      have he' : e ∈ fs0.files := he
      rcases hx : asChild [req.timestamp] e.1 with _ | x
      · rfl
      · exfalso
        have hdx := (asChild_eq_some [req.timestamp] e.1 x).mp hx
        exact hf3 e he' (by rw [hdx]; exact List.prefix_append _ _)
    have hlen : fs1.dirs.length = fs0.dirs.length + 1 := by
      rw [hfs1def]
      simp
    have hts_mem : [req.timestamp] ∈ emptyDirsOf (fs1.dirs.length + 1) fs1 [] := by
      rw [hlen]
      simp only [emptyDirsOf]
      apply List.mem_append_left
      rw [List.mem_flatMap]
      refine ⟨req.timestamp, ?_, ?_⟩
      · rw [mem_children]
        rw [hfs1def]
        show [req.timestamp] ∈ fs0.dirs ++ [[req.timestamp]]
        exact List.mem_append_right _ (List.mem_singleton.mpr rfl)
      · show [req.timestamp] ∈ emptyDirsOf (fs0.dirs.length + 1) fs1 ([] ++ [req.timestamp])
        simp only [List.nil_append, emptyDirsOf, hch, hfi]
        simp
    have hchar := deleteEmptyWalk_eq (fs1.dirs.length + 1) fs1 [] hnd1
    rw [delete_empty_dirs, hchar]
    show [req.timestamp] ∉ (fs1.dirs.filter
      (fun d => ¬ d ∈ emptyDirsOf (fs1.dirs.length + 1) fs1 []))
    rw [List.mem_filter]
    rintro ⟨-, hnot⟩
    rw [decide_eq_true_eq] at hnot
    exact hnot hts_mem

/-- C10 witness: over an empty root, the destination directory is created,
nothing is moved, and the pruning pass removes the destination directory. -/
theorem dest_dir_created_and_pruned_witness :
    [exReq.timestamp] ∈ (runScan exRegistered exReq exFSEmpty).fs.dirs ∧
    [exReq.timestamp] ∉ (delete_empty_dirs (runScan exRegistered exReq exFSEmpty).fs).dirs := by
  have h := dest_dir_created_and_pruned exRegistered exReq exFSEmpty
    (by decide) (by decide) (by decide)
  exact ⟨h.1, h.2 (by decide)⟩
